import Mathlib

/-!
Verification of the real-time transcription-to-hint display clients
(Electron renderer and React prompter) and, where the pipeline code is
absent from the snapshot, spec-modelled components (Event Hub, Hint
Requester).  Strings of the JavaScript source are embedded as `List Char`
so that structural induction is available; JavaScript numbers are embedded
as `Rat` where exact comparison is all that matters.
-/

/-! ## Latency classification (Electron renderer, getLatencyClass) -/

/-- Embeds the renderer's getLatencyClass: "good" below 1000 ms, "ok" below
2000 ms, otherwise "slow". -/
def getLatencyClass (latencyMs : ℚ) : String :=
  if latencyMs < 1000 then "good"
  else if latencyMs < 2000 then "ok"
  else "slow"

/-! ## HTML escaping (Electron renderer, escapeHtml and innerHTML templates) -/

/-- Per-character escape performed by the DOM textContent-to-innerHTML round
trip that the renderer's escapeHtml uses: the HTML fragment serialisation of a
text node replaces the ampersand, less-than and greater-than characters by
their named character references and leaves every other character alone. -/
def escapeChar (c : Char) : List Char :=
  if c = '&' then ['&', 'a', 'm', 'p', ';']
  else if c = '<' then ['&', 'l', 't', ';']
  else if c = '>' then ['&', 'g', 't', ';']
  else [c]

/-- Embeds the renderer's escapeHtml over a list of characters. -/
def escapeHtml : List Char → List Char
  | [] => []
  | c :: rest => escapeChar c ++ escapeHtml rest

/-- A character list is well escaped when it contains no raw less-than or
greater-than character and every ampersand starts one of the three named
character references produced by escaping. -/
def wellEscaped : List Char → Bool
  | [] => true
  | '&' :: 'a' :: 'm' :: 'p' :: ';' :: rest => wellEscaped rest
  | '&' :: 'l' :: 't' :: ';' :: rest => wellEscaped rest
  | '&' :: 'g' :: 't' :: ';' :: rest => wellEscaped rest
  | '&' :: _ => false
  | '<' :: _ => false
  | '>' :: _ => false
  | _ :: rest => wellEscaped rest

theorem wellEscaped_amp (xs : List Char) :
    wellEscaped ('&' :: 'a' :: 'm' :: 'p' :: ';' :: xs) = wellEscaped xs := rfl

theorem wellEscaped_lt (xs : List Char) :
    wellEscaped ('&' :: 'l' :: 't' :: ';' :: xs) = wellEscaped xs := rfl

theorem wellEscaped_gt (xs : List Char) :
    wellEscaped ('&' :: 'g' :: 't' :: ';' :: xs) = wellEscaped xs := rfl

theorem wellEscaped_cons_other {c : Char} (h1 : c ≠ '&') (h2 : c ≠ '<')
    (h3 : c ≠ '>') (xs : List Char) : wellEscaped (c :: xs) = wellEscaped xs := by
  rw [wellEscaped.eq_def]
  split <;> simp_all

theorem wellEscaped_escapeHtml_append (t xs : List Char)
    (h : wellEscaped xs = true) : wellEscaped (escapeHtml t ++ xs) = true := by
  induction t with
  | nil => simpa using h
  | cons c rest ih =>
    show wellEscaped (escapeChar c ++ escapeHtml rest ++ xs) = true
    by_cases h1 : c = '&'
    · subst h1
      simpa [escapeChar, wellEscaped_amp, List.append_assoc] using ih
    · by_cases h2 : c = '<'
      · subst h2
        simpa [escapeChar, wellEscaped_lt, List.append_assoc] using ih
      · by_cases h3 : c = '>'
        · subst h3
          simpa [escapeChar, wellEscaped_gt, List.append_assoc] using ih
        · have hc : escapeChar c = [c] := by simp [escapeChar, h1, h2, h3]
          rw [hc, List.singleton_append, List.cons_append,
            wellEscaped_cons_other h1 h2 h3]
          exact ih

theorem count_escapeChar_lt (c : Char) : (escapeChar c).count '<' = 0 := by
  by_cases h1 : c = '&'
  · simp [escapeChar, h1]
  · by_cases h2 : c = '<'
    · simp [escapeChar, h1, h2]
    · by_cases h3 : c = '>'
      · simp [escapeChar, h1, h2, h3]
      · simp [escapeChar, h1, h2, h3, List.count_singleton', h2]

theorem count_escapeChar_gt (c : Char) : (escapeChar c).count '>' = 0 := by
  by_cases h1 : c = '&'
  · simp [escapeChar, h1]
  · by_cases h2 : c = '<'
    · simp [escapeChar, h1, h2]
    · by_cases h3 : c = '>'
      · simp [escapeChar, h1, h2, h3]
      · simp [escapeChar, h1, h2, h3, List.count_singleton', h3]

theorem count_escapeHtml_lt (t : List Char) : (escapeHtml t).count '<' = 0 := by
  induction t with
  | nil => rfl
  | cons c rest ih =>
    show (escapeChar c ++ escapeHtml rest).count '<' = 0
    rw [List.count_append, count_escapeChar_lt, ih]

theorem count_escapeHtml_gt (t : List Char) : (escapeHtml t).count '>' = 0 := by
  induction t with
  | nil => rfl
  | cons c rest ih =>
    show (escapeChar c ++ escapeHtml rest).count '>' = 0
    rw [List.count_append, count_escapeChar_gt, ih]

/-- Embeds the innerHTML template built by the renderer's handleTranscript for
a final transcript: provider text goes through escapeHtml, while the
confidence and timestamp metadata are rendered by the renderer itself. -/
def finalTranscriptHTML (text confMeta timeMeta : List Char) : List Char :=
  "<div class=\"transcript-text\">".data ++ escapeHtml text
    ++ "</div><div class=\"transcript-meta\"><span class=\"confidence\">Confidence: ".data
    ++ confMeta ++ "%</span><span class=\"timestamp\">".data ++ timeMeta
    ++ "</span></div>".data

/-- Embeds the innerHTML template built by the renderer's handleTranscript for
an interim transcript. -/
def interimTranscriptHTML (text : List Char) : List Char :=
  "<div class=\"transcript-text\">".data ++ escapeHtml text
    ++ "</div><div class=\"transcript-meta\"><span class=\"interim-label\">Interim...</span></div>".data

/-- Embeds the innerHTML template built by the renderer's handleResponse:
response text and context go through escapeHtml, the context block is only
present when the context string is truthy (non-empty), and the latency is
rendered as a number together with its latency class. -/
def responseCardHTML (text context timeMeta latMeta : List Char)
    (latClass : String) : List Char :=
  "<div class=\"response-header\"><span class=\"response-icon\">🤖</span><span class=\"response-time\">".data
    ++ timeMeta ++ "</span></div><div class=\"response-text\">".data
    ++ escapeHtml text ++ "</div>".data
    ++ (if context.isEmpty then [] else
        "<div class=\"response-context\">Context: ".data ++ escapeHtml context
          ++ "</div>".data)
    ++ "<div class=\"response-footer\"><span class=\"latency ".data ++ latClass.data
    ++ "\">⚡ ".data ++ latMeta ++ "ms</span></div>".data

theorem isEmpty_false_of_ne_nil {α : Type} {l : List α} (h : l ≠ []) :
    l.isEmpty = false := by
  cases l with
  | nil => exact absurd rfl h
  | cons a t => rfl

/-- C7: getLatencyClass returns "good" iff the latency is below 1000 ms, "ok"
iff it is at least 1000 ms and below 2000 ms, and "slow" iff it is at least
2000 ms; hence a latency meets the sub-2-second target iff its class is not
"slow". -/
theorem c7_latency_classes (l : ℚ) :
    (getLatencyClass l = "good" ↔ l < 1000) ∧
    (getLatencyClass l = "ok" ↔ 1000 ≤ l ∧ l < 2000) ∧
    (getLatencyClass l = "slow" ↔ 2000 ≤ l) ∧
    (l < 2000 ↔ getLatencyClass l ≠ "slow") := by
  unfold getLatencyClass
  split_ifs with h1 h2
  · exact ⟨iff_of_true rfl h1,
      iff_of_false (by decide) (by rintro ⟨a, b⟩; linarith),
      iff_of_false (by decide) (by intro a; linarith),
      iff_of_true (by linarith) (by decide)⟩
  · exact ⟨iff_of_false (by decide) h1,
      iff_of_true rfl ⟨not_lt.mp h1, h2⟩,
      iff_of_false (by decide) (not_le.mpr h2),
      iff_of_true h2 (by decide)⟩
  · exact ⟨iff_of_false (by decide) h1,
      iff_of_false (by decide) (by rintro ⟨a, b⟩; exact h2 b),
      iff_of_true rfl (not_lt.mp h2),
      iff_of_false h2 (by simp)⟩

/-- C8: escapeHtml output is well escaped (no raw angle bracket, every
ampersand starts a character reference), and in each innerHTML template the
provider-controlled slots (transcript text, response text, context) contribute
no markup: the number of less-than characters of the rendered fragment is
independent of the provider text. -/
theorem c8_escape_html :
    (∀ t : List Char, wellEscaped (escapeHtml t) = true) ∧
    (∀ t : List Char, (escapeHtml t).count '<' = 0 ∧ (escapeHtml t).count '>' = 0) ∧
    (∀ t c ts : List Char,
      (finalTranscriptHTML t c ts).count '<' = (finalTranscriptHTML [] c ts).count '<') ∧
    (∀ t : List Char,
      (interimTranscriptHTML t).count '<' = (interimTranscriptHTML []).count '<') ∧
    (∀ t ctx tm lm cls, (responseCardHTML t ctx tm lm cls).count '<'
      = (responseCardHTML [] ctx tm lm cls).count '<') ∧
    (∀ t tm lm cls, ∀ c1 c2 : List Char, c1 ≠ [] → c2 ≠ [] →
      (responseCardHTML t c1 tm lm cls).count '<'
        = (responseCardHTML t c2 tm lm cls).count '<') := by
  refine ⟨?_, ?_, ?_, ?_, ?_, ?_⟩
  · intro t
    simpa using wellEscaped_escapeHtml_append t [] rfl
  · intro t
    exact ⟨count_escapeHtml_lt t, count_escapeHtml_gt t⟩
  · intro t c ts
    simp only [finalTranscriptHTML, List.count_append, count_escapeHtml_lt]
  · intro t
    simp only [interimTranscriptHTML, List.count_append, count_escapeHtml_lt]
  · intro t ctx tm lm cls
    simp only [responseCardHTML, List.count_append, count_escapeHtml_lt]
  · intro t tm lm cls c1 c2 h1 h2
    simp only [responseCardHTML, isEmpty_false_of_ne_nil h1,
      isEmpty_false_of_ne_nil h2, Bool.false_eq_true, if_false,
      List.count_append, count_escapeHtml_lt]

/-- Witness for C8 at concrete inputs: the context-content independence applied
to two concrete non-empty contexts. -/
theorem c8_escape_html_witness :
    (['a'] : List Char) ≠ [] ∧ (['b'] : List Char) ≠ [] ∧
    (responseCardHTML "x".data ['a'] [] [] "good").count '<'
      = (responseCardHTML "x".data ['b'] [] [] "good").count '<' := by
  refine ⟨by decide, by decide, ?_⟩
  exact c8_escape_html.2.2.2.2.2 "x".data [] [] "good" ['a'] ['b']
    (by decide) (by decide)

/-! ## Electron renderer display state (transcript container, response
container, WebSocket handle) -/

/-- WebSocket readyState values. -/
inductive WsReady
  | connecting
  | opened
  | closing
  | closed
deriving DecidableEq

/-- The renderer's ws variable: null until a connection object exists. -/
def wsIsOpen : Option WsReady → Bool
  | some WsReady.opened => true
  | _ => false

/-- Outbound control messages the clients send to their servers. -/
inductive OutMsg
  | clearContext
  | ping
deriving DecidableEq

/-- One child element of the Electron transcript container: either the single
interim element (id interim-transcript) or a final transcript item. -/
inductive TEl
  | interim (text : List Char)
  | final (text : List Char)
deriving DecidableEq

def TEl.isInterim : TEl → Bool
  | TEl.interim _ => true
  | TEl.final _ => false

/-- One response card in the Electron response container. -/
structure RCard where
  text : List Char
  context : List Char
  latency_ms : ℚ
deriving DecidableEq

/-- JavaScript whitespace characters relevant to String.trim here. -/
def isWsCharJS (c : Char) : Bool :=
  c = ' ' || c = '\t' || c = '\n' || c = '\r'

/-- Embeds JavaScript String.trim: removes leading and trailing whitespace. -/
def jsTrim (t : List Char) : List Char :=
  ((t.dropWhile isWsCharJS).reverse.dropWhile isWsCharJS).reverse

/-- The guard of handleTranscript: a missing text field is falsy, as is an
empty string; otherwise the trimmed text must be non-empty. -/
def isBlankText : Option (List Char) → Bool
  | none => true
  | some t => t.isEmpty || (jsTrim t).isEmpty

def countInterim (c : List TEl) : Nat := c.countP (fun e => e.isInterim)

def countFinalT (c : List TEl) : Nat := c.countP (fun e => !e.isInterim)

def hasInterim (c : List TEl) : Bool := c.any (fun e => e.isInterim)

/-- getElementById followed by remove(): deletes the first element carrying
the interim id, leaves the container unchanged when none exists. -/
def removeFirstInterim : List TEl → List TEl
  | [] => []
  | e :: rest => if e.isInterim then rest else e :: removeFirstInterim rest

/-- getElementById followed by an innerHTML assignment: replaces the content
of the first interim element in place. -/
def setFirstInterim (t : List Char) : List TEl → List TEl
  | [] => []
  | e :: rest =>
    if e.isInterim then TEl.interim t :: rest else e :: setFirstInterim t rest

/-- The while loop removing the container's firstChild while more than maxN
children remain. -/
def trimOldest {α : Type} (maxN : Nat) (c : List α) : List α :=
  c.drop (c.length - maxN)

def maxTranscripts : Nat := 20

def maxResponses : Nat := 10

/-- Embeds the renderer's handleTranscript acting on the transcript container:
blank text returns unchanged; a final message removes the interim element,
appends a final item and trims to maxTranscripts children; a non-final message
updates the interim element in place, creating it at the end if absent. -/
def handleTranscriptE : List TEl → Option (List Char) → Bool → List TEl
  | c, none, _ => c
  | c, some t, is_final =>
    if t.isEmpty || (jsTrim t).isEmpty then c
    else if is_final then
      trimOldest maxTranscripts (removeFirstInterim c ++ [TEl.final t])
    else if hasInterim c then setFirstInterim t c
    else c ++ [TEl.interim t]

/-- Embeds the renderer's handleResponse acting on the response container:
appends a card and trims to maxResponses children. -/
def handleResponseE (r : List RCard) (card : RCard) : List RCard :=
  trimOldest maxResponses (r ++ [card])

/-- The message types the Electron renderer can receive. -/
inductive EMsg
  | transcript (text : Option (List Char)) (is_final : Bool)
  | response (card : RCard)
  | status
  | other
deriving DecidableEq

/-- Electron renderer client state. -/
structure EClient where
  tc : List TEl
  rc : List RCard
  ws : Option WsReady
deriving DecidableEq

def eInit : EClient := ⟨[], [], none⟩

/-- One handleMessage step of the Electron renderer. -/
def stepE (s : EClient) : EMsg → EClient
  | EMsg.transcript t f => { s with tc := handleTranscriptE s.tc t f }
  | EMsg.response card => { s with rc := handleResponseE s.rc card }
  | EMsg.status => s
  | EMsg.other => s

def runE (msgs : List EMsg) : EClient := msgs.foldl stepE eInit

/-- The handlers the Electron renderer's handleMessage switch can reach. -/
inductive EHandler
  | transcript
  | response
  | status
  | unknown
deriving DecidableEq

/-- Embeds the switch of the Electron renderer's handleMessage. -/
def dispatchE (ty : List Char) : EHandler :=
  if ty = "transcript".data then EHandler.transcript
  else if ty = "response".data then EHandler.response
  else if ty = "status".data then EHandler.status
  else EHandler.unknown

/-- Embeds the Electron clear button handler: empties both containers and
sends clear_context exactly when the socket is open. -/
def clearBtnE (s : EClient) : EClient × List OutMsg :=
  ({ s with tc := [], rc := [] },
   if wsIsOpen s.ws then [OutMsg.clearContext] else [])

def heartbeatIntervalMs : Nat := 30000

/-- Modelled from the spec: the receiving server's subscriber liveness timeout
(spec section 4.6, 60 s); the server side of the heartbeat protocol is not
part of the repository snapshot. -/
def livenessTimeoutMs : Nat := 60000

/-- Embeds the renderer's 30-second heartbeat timer callback: sends a ping
exactly when the socket exists and is open. -/
def heartbeatTickE (ws : Option WsReady) : List OutMsg :=
  if wsIsOpen ws then [OutMsg.ping] else []

/-! ## React prompter display state -/

/-- A transcript record kept by the React prompter. -/
structure RTranscript where
  text : List Char
  is_final : Bool
  confidence : ℚ
  timestamp : ℚ
deriving DecidableEq

/-- A hint record kept by the React prompter. -/
structure RHint where
  text : List Char
  question : List Char
  timestamp : ℚ
deriving DecidableEq

/-- React prompter client state. -/
structure RClient where
  transcripts : List RTranscript
  hints : List RHint
  currentHint : Option RHint
  interimText : List Char
  ws : Option WsReady
deriving DecidableEq

def rInit : RClient := ⟨[], [], none, [], none⟩

/-- JavaScript Array.prototype.slice with a negative start: the last n
elements of the array. -/
def jsSliceNeg {α : Type} (n : Nat) (l : List α) : List α :=
  l.drop (l.length - n)

/-- The message types the React prompter can receive. -/
inductive RMsg
  | transcript (data : RTranscript)
  | hint (data : RHint)
  | status
  | other
deriving DecidableEq

/-- One handleMessage step of the React prompter. -/
def handleMessageR (s : RClient) : RMsg → RClient
  | RMsg.transcript d =>
    if d.is_final then
      { s with transcripts := jsSliceNeg 10 s.transcripts ++ [d], interimText := [] }
    else
      { s with interimText := d.text }
  | RMsg.hint h =>
    { s with hints := jsSliceNeg 5 s.hints ++ [h], currentHint := some h }
  | RMsg.status => s
  | RMsg.other => s

def runR (msgs : List RMsg) : RClient := msgs.foldl handleMessageR rInit

/-- The cases the React prompter's handleMessage switch can reach; the switch
has no default clause, so an unmatched type runs no handler. -/
inductive RHandler
  | transcript
  | hint
  | status
  | unmatched
deriving DecidableEq

/-- Embeds the switch of the React prompter's handleMessage. -/
def dispatchR (ty : List Char) : RHandler :=
  if ty = "transcript".data then RHandler.transcript
  else if ty = "hint".data then RHandler.hint
  else if ty = "status".data then RHandler.status
  else RHandler.unmatched

/-- The prominent current-hint block renders the hint text together with its
triggering question. -/
def renderCurrentHint (s : RClient) : Option (List Char × List Char) :=
  s.currentHint.map (fun h => (h.text, h.question))

/-- Embeds the React clearAll handler: empties all four displayed collections
and sends clear_context exactly when the socket is open. -/
def clearAllR (s : RClient) : RClient × List OutMsg :=
  ({ s with transcripts := [], hints := [], currentHint := none, interimText := [] },
   if wsIsOpen s.ws then [OutMsg.clearContext] else [])

/-! ## Helper lemmas about the Electron transcript container -/

@[simp] theorem TEl.isInterim_of_interim (t : List Char) :
    (TEl.interim t).isInterim = true := rfl

@[simp] theorem TEl.isInterim_of_final (t : List Char) :
    (TEl.final t).isInterim = false := rfl

theorem countInterim_removeFirstInterim (c : List TEl) :
    countInterim (removeFirstInterim c) = countInterim c - 1 := by
  induction c with
  | nil => rfl
  | cons e rest ih =>
    cases h : e.isInterim with
    | true => simp [removeFirstInterim, countInterim, h, List.countP_cons]
    | false =>
      simp only [removeFirstInterim, h, Bool.false_eq_true, if_false]
      simpa [countInterim, List.countP_cons, h] using ih

theorem countInterim_setFirstInterim (t : List Char) (c : List TEl) :
    countInterim (setFirstInterim t c) = countInterim c := by
  induction c with
  | nil => rfl
  | cons e rest ih =>
    cases h : e.isInterim with
    | true => simp [setFirstInterim, countInterim, h, List.countP_cons]
    | false =>
      simp only [setFirstInterim, h, Bool.false_eq_true, if_false]
      simpa [countInterim, List.countP_cons, h] using ih

theorem countFinalT_setFirstInterim (t : List Char) (c : List TEl) :
    countFinalT (setFirstInterim t c) = countFinalT c := by
  induction c with
  | nil => rfl
  | cons e rest ih =>
    cases h : e.isInterim with
    | true => simp [setFirstInterim, countFinalT, h, List.countP_cons]
    | false =>
      simp only [setFirstInterim, h, Bool.false_eq_true, if_false]
      simpa [countFinalT, List.countP_cons, h] using ih

theorem length_setFirstInterim (t : List Char) (c : List TEl) :
    (setFirstInterim t c).length = c.length := by
  induction c with
  | nil => rfl
  | cons e rest ih =>
    cases h : e.isInterim with
    | true => simp [setFirstInterim, h]
    | false => simp [setFirstInterim, h, ih]

theorem countInterim_of_hasInterim_false {c : List TEl}
    (h : hasInterim c = false) : countInterim c = 0 := by
  simp only [hasInterim, List.any_eq_false] at h
  simp only [countInterim, List.countP_eq_zero]
  exact h

theorem countP_trimOldest_le {α : Type} (p : α → Bool) (maxN : Nat) (c : List α) :
    (trimOldest maxN c).countP p ≤ c.countP p :=
  List.Sublist.countP_le p (List.drop_sublist _ _)

theorem length_split_interim (c : List TEl) :
    c.length = countInterim c + countFinalT c := by
  induction c with
  | nil => rfl
  | cons e rest ih =>
    cases h : e.isInterim with
    | true =>
      simp only [countInterim, countFinalT, List.countP_cons, h] at *
      simp
      omega
    | false =>
      simp only [countInterim, countFinalT, List.countP_cons, h] at *
      simp
      omega

theorem countInterim_append_final (c : List TEl) (t : List Char) :
    countInterim (c ++ [TEl.final t]) = countInterim c := by
  simp [countInterim, List.countP_append]

theorem countFinalT_append_interim (c : List TEl) (t : List Char) :
    countFinalT (c ++ [TEl.interim t]) = countFinalT c := by
  simp [countFinalT, List.countP_append]

theorem countInterim_append_interim (c : List TEl) (t : List Char) :
    countInterim (c ++ [TEl.interim t]) = countInterim c + 1 := by
  simp [countInterim, List.countP_append]

/-- Core step property: handleTranscriptE preserves the container bounds. -/
theorem handleTranscriptE_bounds (c : List TEl) (text : Option (List Char))
    (f : Bool) (hI : countInterim c ≤ 1) (hF : countFinalT c ≤ maxTranscripts) :
    countInterim (handleTranscriptE c text f) ≤ 1 ∧
    countFinalT (handleTranscriptE c text f) ≤ maxTranscripts := by
  cases text with
  | none => exact ⟨hI, hF⟩
  | some t =>
    by_cases hbl : (t.isEmpty || (jsTrim t).isEmpty) = true
    · simp only [handleTranscriptE, hbl, if_true]
      exact ⟨hI, hF⟩
    · rw [show handleTranscriptE c (some t) f
          = (if f then trimOldest maxTranscripts (removeFirstInterim c ++ [TEl.final t])
             else if hasInterim c then setFirstInterim t c
             else c ++ [TEl.interim t]) by
        simp [handleTranscriptE, hbl]]
      cases f with
      | true =>
        simp only [if_true]
        constructor
        · calc countInterim (trimOldest maxTranscripts (removeFirstInterim c ++ [TEl.final t]))
              ≤ countInterim (removeFirstInterim c ++ [TEl.final t]) :=
                countP_trimOldest_le _ _ _
            _ = countInterim (removeFirstInterim c) := countInterim_append_final _ _
            _ ≤ 1 := by rw [countInterim_removeFirstInterim]; omega
        · calc countFinalT (trimOldest maxTranscripts (removeFirstInterim c ++ [TEl.final t]))
              ≤ (trimOldest maxTranscripts (removeFirstInterim c ++ [TEl.final t])).length :=
                List.countP_le_length _
            _ ≤ maxTranscripts := by
                simp only [trimOldest, List.length_drop]
                omega
      | false =>
        simp only [Bool.false_eq_true, if_false]
        cases hhi : hasInterim c with
        | true =>
          simp only [if_true]
          rw [countInterim_setFirstInterim, countFinalT_setFirstInterim]
          exact ⟨hI, hF⟩
        | false =>
          simp only [Bool.false_eq_true, if_false]
          constructor
          · rw [countInterim_append_interim, countInterim_of_hasInterim_false hhi]
          · rw [countFinalT_append_interim]
            exact hF

/-! ## Run-level invariants -/

/-- A step-preserved predicate holds after any fold when it holds initially. -/
theorem foldl_inv {σ μ : Type} (step : σ → μ → σ) (P : σ → Prop)
    (hstep : ∀ s m, P s → P (step s m)) :
    ∀ (msgs : List μ) (s : σ), P s → P (List.foldl step s msgs)
  | [], _, h => h
  | m :: rest, s, h => foldl_inv step P hstep rest (step s m) (hstep s m h)

/-- Invariant of the Electron renderer display. -/
def EInv (s : EClient) : Prop :=
  countInterim s.tc ≤ 1 ∧ countFinalT s.tc ≤ maxTranscripts ∧
    s.rc.length ≤ maxResponses

theorem stepE_inv (s : EClient) (m : EMsg) (h : EInv s) : EInv (stepE s m) := by
  obtain ⟨h1, h2, h3⟩ := h
  cases m with
  | transcript t f =>
    have hb := handleTranscriptE_bounds s.tc t f h1 h2
    exact ⟨hb.1, hb.2, h3⟩
  | response card =>
    refine ⟨h1, h2, ?_⟩
    show (handleResponseE s.rc card).length ≤ maxResponses
    simp only [handleResponseE, trimOldest, List.length_drop, List.length_append]
    omega
  | status => exact ⟨h1, h2, h3⟩
  | other => exact ⟨h1, h2, h3⟩

theorem runE_inv (msgs : List EMsg) : EInv (runE msgs) :=
  foldl_inv stepE EInv stepE_inv msgs eInit
    ⟨by simp [countInterim, eInit], by simp [countFinalT, eInit], by simp [eInit]⟩

/-- Invariant of the React prompter display. -/
def RInv (s : RClient) : Prop :=
  s.transcripts.length ≤ 11 ∧ s.hints.length ≤ 6

theorem handleMessageR_inv (s : RClient) (m : RMsg) (h : RInv s) :
    RInv (handleMessageR s m) := by
  obtain ⟨h1, h2⟩ := h
  cases m with
  | transcript d =>
    cases hf : d.is_final with
    | true =>
      have he : handleMessageR s (RMsg.transcript d)
          = { s with transcripts := jsSliceNeg 10 s.transcripts ++ [d],
                     interimText := [] } := by
        simp [handleMessageR, hf]
      rw [he]
      refine ⟨?_, h2⟩
      simp only [jsSliceNeg, List.length_append, List.length_drop,
        List.length_cons, List.length_nil]
      omega
    | false =>
      have he : handleMessageR s (RMsg.transcript d)
          = { s with interimText := d.text } := by
        simp [handleMessageR, hf]
      rw [he]
      exact ⟨h1, h2⟩
  | hint hd =>
    have he : handleMessageR s (RMsg.hint hd)
        = { s with hints := jsSliceNeg 5 s.hints ++ [hd],
                   currentHint := some hd } := by
      simp [handleMessageR]
    rw [he]
    refine ⟨h1, ?_⟩
    simp only [jsSliceNeg, List.length_append, List.length_drop,
      List.length_cons, List.length_nil]
    omega
  | status => exact ⟨h1, h2⟩
  | other => exact ⟨h1, h2⟩

theorem runR_inv (msgs : List RMsg) : RInv (runR msgs) :=
  foldl_inv handleMessageR RInv handleMessageR_inv msgs rInit
    ⟨by simp [rInit], by simp [rInit]⟩

/-! ## Claim theorems for the display clients -/

/-- C1 counterexample: the Electron renderer's handleMessage sends a message
of type "hint" to its unknown-type default branch, not to a hint handler. -/
theorem c1_counterexample : dispatchE "hint".data = EHandler.unknown := by
  decide

/-- C1 (amended): a hint message is processed and rendered (text with its
triggering question) by the React prompter, whose handleMessage dispatches
type "hint" to the hint case; the Electron renderer has no "hint" case — its
handleMessage dispatches type "hint" to the unknown-type branch and renders
hint-like payloads only under type "response". -/
theorem c1_hint_routing :
    dispatchR "hint".data = RHandler.hint ∧
    dispatchE "hint".data = EHandler.unknown ∧
    dispatchE "response".data = EHandler.response ∧
    (∀ (s : RClient) (h : RHint),
      renderCurrentHint (handleMessageR s (RMsg.hint h)) = some (h.text, h.question) ∧
      ∃ pre, (handleMessageR s (RMsg.hint h)).hints = pre ++ [h]) := by
  refine ⟨by decide, by decide, by decide, ?_⟩
  intro s h
  constructor
  · simp [handleMessageR, renderCurrentHint]
  · exact ⟨jsSliceNeg 5 s.hints, by simp [handleMessageR]⟩

/-- C4: the clear operation of either display client empties every locally
displayed collection, and sends exactly one clear_context control message
exactly when the client's WebSocket connection is open. -/
theorem c4_clear_behavior :
    (∀ s : EClient, (clearBtnE s).1.tc = [] ∧ (clearBtnE s).1.rc = [] ∧
      (wsIsOpen s.ws = true → (clearBtnE s).2 = [OutMsg.clearContext]) ∧
      (wsIsOpen s.ws = false → (clearBtnE s).2 = [])) ∧
    (∀ s : RClient, (clearAllR s).1.transcripts = [] ∧ (clearAllR s).1.hints = [] ∧
      (clearAllR s).1.currentHint = none ∧ (clearAllR s).1.interimText = [] ∧
      (wsIsOpen s.ws = true → (clearAllR s).2 = [OutMsg.clearContext]) ∧
      (wsIsOpen s.ws = false → (clearAllR s).2 = [])) := by
  constructor
  · intro s
    refine ⟨rfl, rfl, ?_, ?_⟩ <;> intro h <;> simp [clearBtnE, h]
  · intro s
    refine ⟨rfl, rfl, rfl, rfl, ?_, ?_⟩ <;> intro h <;> simp [clearAllR, h]

/-- Witness for C4 at concrete states: with an open socket the clear message
is sent, with a null socket nothing is sent. -/
theorem c4_clear_behavior_witness :
    wsIsOpen (some WsReady.opened) = true ∧
    (clearBtnE ⟨[TEl.final ['a']], [], some WsReady.opened⟩).2 = [OutMsg.clearContext] ∧
    wsIsOpen (none : Option WsReady) = false ∧
    (clearAllR ⟨[], [], none, ['x'], none⟩).2 = [] :=
  ⟨rfl, (c4_clear_behavior.1 ⟨[TEl.final ['a']], [], some WsReady.opened⟩).2.2.1 rfl,
   rfl, (c4_clear_behavior.2 ⟨[], [], none, ['x'], none⟩).2.2.2.2.2 rfl⟩

/-- C6: the heartbeat timer callback sends a single ping exactly when the
socket is open and nothing otherwise, and the 30-second heartbeat period lies
below the 60-second liveness timeout. -/
theorem c6_heartbeat :
    (∀ ws : Option WsReady, wsIsOpen ws = true → heartbeatTickE ws = [OutMsg.ping]) ∧
    (∀ ws : Option WsReady, wsIsOpen ws = false → heartbeatTickE ws = []) ∧
    heartbeatIntervalMs < livenessTimeoutMs := by
  refine ⟨?_, ?_, by decide⟩ <;> intro ws h <;> simp [heartbeatTickE, h]

/-- Witness for C6 at concrete socket states. -/
theorem c6_heartbeat_witness :
    wsIsOpen (some WsReady.opened) = true ∧
    heartbeatTickE (some WsReady.opened) = [OutMsg.ping] ∧
    wsIsOpen (some WsReady.closed) = false ∧
    heartbeatTickE (some WsReady.closed) = [] :=
  ⟨rfl, c6_heartbeat.1 (some WsReady.opened) rfl,
   rfl, c6_heartbeat.2.1 (some WsReady.closed) rfl⟩

/-- C10: handleTranscript leaves the transcript container untouched when the
text field is absent, empty, or only whitespace (the trim guard fires). -/
theorem c10_blank_guard :
    (∀ (c : List TEl) (f : Bool) (t? : Option (List Char)),
      isBlankText t? = true → handleTranscriptE c t? f = c) ∧
    (∀ t : List Char, (∀ ch ∈ t, isWsCharJS ch = true) →
      isBlankText (some t) = true) ∧
    isBlankText none = true := by
  refine ⟨?_, ?_, rfl⟩
  · intro c f t? h
    cases t? with
    | none => rfl
    | some t =>
      have hb : (t.isEmpty || (jsTrim t).isEmpty) = true := h
      simp [handleTranscriptE, hb]
  · intro t h
    have h1 : t.dropWhile isWsCharJS = [] := List.dropWhile_eq_nil_iff.mpr h
    have h2 : jsTrim t = [] := by simp [jsTrim, h1]
    simp [isBlankText, h2]

/-- Witness for C10: a whitespace-only text is blank and leaves a concrete
container unchanged. -/
theorem c10_blank_guard_witness :
    isBlankText (some [' ', ' ']) = true ∧
    handleTranscriptE [TEl.final ['a']] (some [' ', ' ']) true = [TEl.final ['a']] :=
  ⟨by decide, c10_blank_guard.1 [TEl.final ['a']] true (some [' ', ' ']) (by decide)⟩

theorem countInterim_trimOldest_le (m : Nat) (c : List TEl) :
    countInterim (trimOldest m c) ≤ countInterim c :=
  countP_trimOldest_le _ m c

/-- C5: each display client shows at most one interim transcript at any time:
over every message sequence the Electron container holds at most one interim
element; a non-final message with an existing interim replaces it in place
(container length unchanged); a final message leaves no interim element and
appends the final text; the React prompter overwrites its single interim
string on a non-final message and clears it while appending on a final one. -/
theorem c5_interim_invariant :
    (∀ msgs : List EMsg, countInterim (runE msgs).tc ≤ 1) ∧
    (∀ (c : List TEl) (t : List Char), hasInterim c = true →
      (handleTranscriptE c (some t) false).length = c.length) ∧
    (∀ (c : List TEl) (t : List Char), isBlankText (some t) = false →
      countInterim c ≤ 1 →
      countInterim (handleTranscriptE c (some t) true) = 0 ∧
      ∃ pre, handleTranscriptE c (some t) true = pre ++ [TEl.final t]) ∧
    (∀ (s : RClient) (d : RTranscript), d.is_final = false →
      (handleMessageR s (RMsg.transcript d)).interimText = d.text ∧
      (handleMessageR s (RMsg.transcript d)).transcripts = s.transcripts) ∧
    (∀ (s : RClient) (d : RTranscript), d.is_final = true →
      (handleMessageR s (RMsg.transcript d)).interimText = [] ∧
      ∃ pre, (handleMessageR s (RMsg.transcript d)).transcripts = pre ++ [d]) := by
  refine ⟨?_, ?_, ?_, ?_, ?_⟩
  · intro msgs
    exact (runE_inv msgs).1
  · intro c t hI
    by_cases hb : (t.isEmpty || (jsTrim t).isEmpty) = true
    · simp [handleTranscriptE, hb]
    · have hb2 : (t.isEmpty || (jsTrim t).isEmpty) = false := by
        cases hx : (t.isEmpty || (jsTrim t).isEmpty)
        · rfl
        · exact absurd hx hb
      simp [handleTranscriptE, hb2, hI, length_setFirstInterim]
  · intro c t hbF hI
    have hb2 : (t.isEmpty || (jsTrim t).isEmpty) = false := hbF
    have he : handleTranscriptE c (some t) true
        = trimOldest maxTranscripts (removeFirstInterim c ++ [TEl.final t]) := by
      simp [handleTranscriptE, hb2]
    constructor
    · rw [he]
      have hch : countInterim (trimOldest maxTranscripts
            (removeFirstInterim c ++ [TEl.final t]))
          ≤ countInterim c - 1 := by
        calc countInterim (trimOldest maxTranscripts
              (removeFirstInterim c ++ [TEl.final t]))
            ≤ countInterim (removeFirstInterim c ++ [TEl.final t]) :=
              countInterim_trimOldest_le _ _
          _ = countInterim (removeFirstInterim c) := countInterim_append_final _ _
          _ = countInterim c - 1 := countInterim_removeFirstInterim c
      omega
    · refine ⟨(removeFirstInterim c).drop
        ((removeFirstInterim c).length + 1 - maxTranscripts), ?_⟩
      have h20 : (removeFirstInterim c).length + 1 - maxTranscripts
          ≤ (removeFirstInterim c).length := by
        have h1 : 1 ≤ maxTranscripts := by decide
        omega
      rw [he]
      simp only [trimOldest, List.length_append, List.length_cons, List.length_nil]
      rw [List.drop_append_of_le_length h20]
  · intro s d hf
    have he : handleMessageR s (RMsg.transcript d)
        = { s with interimText := d.text } := by
      simp [handleMessageR, hf]
    rw [he]
    exact ⟨rfl, rfl⟩
  · intro s d hf
    have he : handleMessageR s (RMsg.transcript d)
        = { s with transcripts := jsSliceNeg 10 s.transcripts ++ [d],
                   interimText := [] } := by
      simp [handleMessageR, hf]
    rw [he]
    exact ⟨rfl, jsSliceNeg 10 s.transcripts, rfl⟩

/-- Witness for C5 at concrete inputs: an in-place interim replacement keeps
the container length, and a final message empties the interim count. -/
theorem c5_interim_invariant_witness :
    hasInterim [TEl.interim ['a']] = true ∧
    (handleTranscriptE [TEl.interim ['a']] (some ['b']) false).length = 1 ∧
    isBlankText (some ['q']) = false ∧
    countInterim [TEl.interim ['a']] ≤ 1 ∧
    countInterim (handleTranscriptE [TEl.interim ['a']] (some ['q']) true) = 0 :=
  ⟨by decide,
   c5_interim_invariant.2.1 [TEl.interim ['a']] ['b'] (by decide),
   by decide, by decide,
   (c5_interim_invariant.2.2.1 [TEl.interim ['a']] ['q'] (by decide) (by decide)).1⟩

/-- The concrete message sequence refuting the 20-element bound for the
Electron transcript container: twenty final transcripts fill the container,
then one interim update adds a twenty-first child. -/
def c9exMsgs : List EMsg :=
  List.replicate 20 (EMsg.transcript (some ['a']) true)
    ++ [EMsg.transcript (some ['b']) false]

/-- C9 counterexample: after twenty final transcripts followed by one interim
update the Electron transcript container holds 21 elements, exceeding the
claimed bound of at most 20 transcript elements in the DOM. -/
theorem c9_counterexample : 20 < ((runE c9exMsgs).tc).length := by decide

/-- C9 (amended): retention is bounded by fixed constants, evicting oldest
first: the React prompter keeps at most 11 final transcripts and at most 6
hints; the Electron renderer keeps at most 20 final transcript elements plus
at most one interim element — hence at most 21 children in the transcript
container — and at most 10 response cards. -/
theorem c9_bounded_retention :
    (∀ msgs : List EMsg, countFinalT (runE msgs).tc ≤ 20 ∧
      countInterim (runE msgs).tc ≤ 1 ∧ (runE msgs).tc.length ≤ 21 ∧
      (runE msgs).rc.length ≤ 10) ∧
    (∀ msgs : List RMsg, (runR msgs).transcripts.length ≤ 11 ∧
      (runR msgs).hints.length ≤ 6) ∧
    (∀ (r : List RCard) (card : RCard), handleResponseE r card <:+ r ++ [card]) ∧
    (∀ (s : RClient) (d : RTranscript), d.is_final = true →
      (handleMessageR s (RMsg.transcript d)).transcripts <:+ s.transcripts ++ [d]) := by
  refine ⟨?_, ?_, ?_, ?_⟩
  · intro msgs
    obtain ⟨h1, h2, h3⟩ := runE_inv msgs
    have h2l : countFinalT (runE msgs).tc ≤ 20 := h2
    have h3l : (runE msgs).rc.length ≤ 10 := h3
    have hsplit := length_split_interim (runE msgs).tc
    exact ⟨h2l, h1, by omega, h3l⟩
  · intro msgs
    exact runR_inv msgs
  · intro r card
    show trimOldest maxResponses (r ++ [card]) <:+ r ++ [card]
    exact List.drop_suffix _ _
  · intro s d hf
    have he : handleMessageR s (RMsg.transcript d)
        = { s with transcripts := jsSliceNeg 10 s.transcripts ++ [d],
                   interimText := [] } := by
      simp [handleMessageR, hf]
    rw [he]
    show jsSliceNeg 10 s.transcripts ++ [d] <:+ s.transcripts ++ [d]
    obtain ⟨p, hp⟩ := List.drop_suffix (s.transcripts.length - 10) s.transcripts
    refine ⟨p, ?_⟩
    show p ++ (jsSliceNeg 10 s.transcripts ++ [d]) = s.transcripts ++ [d]
    rw [← List.append_assoc]
    show p ++ List.drop (s.transcripts.length - 10) s.transcripts ++ [d]
      = s.transcripts ++ [d]
    rw [hp]

/-- Witness for C9 at a concrete input: a final transcript message appends to
the kept suffix of the previous transcript list. -/
theorem c9_bounded_retention_witness :
    (⟨['a'], true, 1, 0⟩ : RTranscript).is_final = true ∧
    (handleMessageR rInit (RMsg.transcript ⟨['a'], true, 1, 0⟩)).transcripts
      <:+ rInit.transcripts ++ [⟨['a'], true, 1, 0⟩] :=
  ⟨rfl, c9_bounded_retention.2.2.2 rInit ⟨['a'], true, 1, 0⟩ rfl⟩

/-! ## Spec-modelled Hint Requester (concurrency cap) -/

/-- Modelled from the spec: the Hint Requester's state is the per-session
count of in-flight language-model calls (spec sections 3 and 4.4); the
requester implementation is not part of the repository snapshot. -/
structure ReqState where
  inflight : Nat
deriving DecidableEq

/-- A trigger (question detected on a final transcript) or the completion of
an outstanding provider call, successful or not. -/
inductive ReqAct
  | trigger (question : List Char)
  | complete (ok : Bool)
deriving DecidableEq

/-- Observable outputs of one requester step. -/
inductive ReqOut
  | providerCall (question : List Char)
  | hintEvent
  | statusWarning
deriving DecidableEq

/-- Modelled from the spec: one requester step. A trigger issues a provider
call only when the in-flight counter is below the cap, and is otherwise
silently skipped with no state change (the utterance is not re-queued); a
completion decrements the counter and yields a HintEvent on success or a
non-fatal status warning on failure. -/
def stepReq (cap : Nat) (s : ReqState) : ReqAct → ReqState × List ReqOut
  | ReqAct.trigger q =>
    if s.inflight < cap then (⟨s.inflight + 1⟩, [ReqOut.providerCall q])
    else (s, [])
  | ReqAct.complete ok =>
    (⟨s.inflight - 1⟩, if ok then [ReqOut.hintEvent] else [ReqOut.statusWarning])

/-- The default concurrency cap. -/
def hintCapDefault : Nat := 1

def runReq (cap : Nat) (acts : List ReqAct) : ReqState :=
  acts.foldl (fun s a => (stepReq cap s a).1) ⟨0⟩

theorem stepReq_le (cap : Nat) (s : ReqState) (a : ReqAct)
    (h : s.inflight ≤ cap) : (stepReq cap s a).1.inflight ≤ cap := by
  cases a with
  | trigger q =>
    by_cases hlt : s.inflight < cap
    · simp [stepReq, hlt]
      omega
    · simp [stepReq, hlt]
      exact h
  | complete ok =>
    simp [stepReq]
    omega

/-- C2: for every cap and every interleaving of triggers and completions the
in-flight counter never exceeds the cap; and when the counter has reached the
cap, a trigger performs no provider call, emits nothing, and leaves the
requester state unchanged (nothing is re-queued). -/
theorem c2_inflight_cap :
    (∀ (cap : Nat) (acts : List ReqAct), (runReq cap acts).inflight ≤ cap) ∧
    (∀ (cap : Nat) (s : ReqState) (q : List Char), s.inflight = cap →
      stepReq cap s (ReqAct.trigger q) = (s, [])) ∧
    hintCapDefault = 1 := by
  refine ⟨?_, ?_, rfl⟩
  · intro cap acts
    exact foldl_inv (fun s a => (stepReq cap s a).1)
      (fun s => s.inflight ≤ cap) (fun s a h => stepReq_le cap s a h)
      acts ⟨0⟩ (Nat.zero_le cap)
  · intro cap s q h
    have hnlt : ¬s.inflight < cap := by omega
    simp [stepReq, hnlt]

/-- Witness for C2: with the default cap 1 and one call already in flight, a
second trigger is skipped entirely. -/
theorem c2_inflight_cap_witness :
    (⟨1⟩ : ReqState).inflight = 1 ∧
    stepReq 1 ⟨1⟩ (ReqAct.trigger "why".data) = (⟨1⟩, []) :=
  ⟨rfl, c2_inflight_cap.2.1 1 ⟨1⟩ "why".data rfl⟩

/-! ## Spec-modelled Event Hub (per-subscriber ordering) -/

/-- Modelled from the spec: an event stamped by the Event Hub with the
session's monotonic sequence counter; only the interim flag matters for the
bounded-queue drop policy (spec sections 3, 4.5, 5). The hub implementation
is not part of the repository snapshot. -/
structure HubEvent where
  seq : Nat
  interim : Bool
deriving DecidableEq

/-- Modelled from the spec: hub state for one session and one subscriber —
the sequence counter, the emission history, the subscriber's bounded queue
and the events already delivered to that subscriber. -/
structure HubState where
  counter : Nat
  history : List HubEvent
  queue : List HubEvent
  delivered : List HubEvent
deriving DecidableEq

/-- Modelled from the spec: default per-subscriber queue capacity. -/
def queueCapacity : Nat := 64

/-- Modelled from the spec: the drop policy on a full queue — the oldest
interim event is dropped first; only when no interim event remains is the
oldest event dropped. -/
def dropOne (q : List HubEvent) : List HubEvent :=
  match q.findIdx? (fun e => e.interim) with
  | some i => q.eraseIdx i
  | none => q.drop 1

/-- An emission (broadcast of a freshly stamped event) or one delivery from
the front of the subscriber's queue. -/
inductive HubAct
  | emit (interim : Bool)
  | deliver
deriving DecidableEq

/-- Modelled from the spec: one hub step. Emission stamps the event with the
counter, appends it to history and enqueues it, dropping per the policy when
the queue is full; delivery hands the queue's head to the subscriber. -/
def stepHub (s : HubState) : HubAct → HubState
  | HubAct.emit i =>
    let e : HubEvent := ⟨s.counter, i⟩
    let q1 := if queueCapacity ≤ s.queue.length then dropOne s.queue else s.queue
    { counter := s.counter + 1, history := s.history ++ [e],
      queue := q1 ++ [e], delivered := s.delivered }
  | HubAct.deliver =>
    match s.queue with
    | [] => s
    | e :: rest => { s with queue := rest, delivered := s.delivered ++ [e] }

def hubInit : HubState := ⟨0, [], [], []⟩

def runHub (acts : List HubAct) : HubState := acts.foldl stepHub hubInit

/-- Hub invariant: delivered followed by the pending queue is a sublist of
history, and history carries exactly the sequence stamps 0, 1, 2, …. -/
def HubInv (s : HubState) : Prop :=
  (s.delivered ++ s.queue).Sublist s.history ∧
    s.history.map (fun e => e.seq) = List.range s.counter

theorem dropOne_sublist (q : List HubEvent) : (dropOne q).Sublist q := by
  unfold dropOne
  cases h : q.findIdx? (fun e => e.interim) with
  | none => exact List.drop_sublist 1 q
  | some i => exact List.eraseIdx_sublist q i

theorem stepHub_inv (s : HubState) (a : HubAct) (h : HubInv s) :
    HubInv (stepHub s a) := by
  obtain ⟨hsub, hmap⟩ := h
  cases a with
  | emit i =>
    refine ⟨?_, ?_⟩
    · show (s.delivered ++ ((if queueCapacity ≤ s.queue.length then dropOne s.queue
          else s.queue) ++ [HubEvent.mk s.counter i])).Sublist
          (s.history ++ [HubEvent.mk s.counter i])
      have hq1 : (if queueCapacity ≤ s.queue.length then dropOne s.queue
          else s.queue).Sublist s.queue := by
        by_cases hc : queueCapacity ≤ s.queue.length
        · simpa [hc] using dropOne_sublist s.queue
        · simp [hc]
      have step1 : (s.delivered ++ (if queueCapacity ≤ s.queue.length
          then dropOne s.queue else s.queue)).Sublist (s.delivered ++ s.queue) :=
        List.Sublist.append_left hq1 s.delivered
      have step2 := step1.trans hsub
      have step3 := List.Sublist.append step2
        (List.Sublist.refl [HubEvent.mk s.counter i])
      rw [← List.append_assoc]
      exact step3
    · show ((s.history ++ [HubEvent.mk s.counter i]).map (fun e => e.seq))
          = List.range (s.counter + 1)
      rw [List.map_append, hmap, List.range_succ]
      rfl
  | deliver =>
    cases hq : s.queue with
    | nil =>
      simp only [stepHub, hq]
      exact ⟨by simpa [hq] using hsub, hmap⟩
    | cons e rest =>
      simp only [stepHub, hq]
      refine ⟨?_, hmap⟩
      rw [hq] at hsub
      rw [List.append_assoc, List.singleton_append]
      exact hsub

theorem runHub_inv (acts : List HubAct) : HubInv (runHub acts) :=
  foldl_inv stepHub HubInv stepHub_inv acts hubInit
    ⟨by simp [hubInit], by simp [hubInit]⟩

/-- C3: for every interleaving of emissions and deliveries, the events one
subscriber receives form a sublist of the emission history — the drop policy
omits but never reorders — and hence the sequence numbers the subscriber
observes are strictly increasing, in particular non-decreasing. -/
theorem c3_subscriber_order (acts : List HubAct) :
    (runHub acts).delivered.Sublist (runHub acts).history ∧
    ((runHub acts).delivered.map (fun e => e.seq)).Pairwise (· < ·) ∧
    ((runHub acts).delivered.map (fun e => e.seq)).Pairwise (· ≤ ·) := by
  obtain ⟨hsub, hmap⟩ := runHub_inv acts
  have hdel : (runHub acts).delivered.Sublist (runHub acts).history :=
    (List.sublist_append_left _ _).trans hsub
  have hmaps : ((runHub acts).delivered.map (fun e => e.seq)).Sublist
      ((runHub acts).history.map (fun e => e.seq)) := hdel.map _
  rw [hmap] at hmaps
  have hlt : ((runHub acts).delivered.map (fun e => e.seq)).Pairwise (· < ·) :=
    List.Pairwise.sublist hmaps (List.pairwise_lt_range _)
  exact ⟨hdel, hlt, hlt.imp (fun hab => Nat.le_of_lt hab)⟩
